import Mathlib

/-!
Verification development for the FrisbySpec module (src/frisby/spec.js).

The JavaScript source is shallowly embedded: JavaScript values that the
claims exercise are modelled by the inductive type JVal, the per-spec
mutable state by the structure SpecState, and each method of the
FrisbySpec class by a Lean function named after it.  External host
builtins (JSON.stringify, JSON.parse via response.json, Object.assign,
lodash merge) are given executable models faithful to their behaviour on
the value fragment the source exercises.
-/

set_option maxHeartbeats 1000000

/-- Model of a JavaScript value as used by the frisby spec module.
Numbers are modelled as integers: every numeric literal in the source
and in the claims is integral. -/
inductive JVal where
  | undefined
  | null
  | bool (b : Bool)
  | num (n : Int)
  | str (s : String)
  | arr (elems : List JVal)
  | obj (fields : List (String × JVal))
deriving Repr

namespace JVal




/-- JavaScript truthiness of a value. -/
def truthy : JVal → Bool
  | .undefined => false
  | .null => false
  | .bool b => b
  | .num n => n != 0
  | .str s => s != ""
  | .arr _ => true
  | .obj _ => true

/-- First binding of a key in a field list (JavaScript object lookup). -/
def lookupField : List (String × JVal) → String → Option JVal
  | [], _ => none
  | (k, v) :: rest, key => if k = key then some v else lookupField rest key

/-- Property read modelling JavaScript obj.key: missing keys and reads on
primitives give undefined; reads on null or undefined throw a TypeError. -/
def getProp : JVal → String → Option JVal
  | .undefined, _ => none
  | .null, _ => none
  | .obj fs, key => some ((lookupField fs key).getD .undefined)
  | _, _ => some .undefined

/-- Update or append one key in a field list, preserving key order as a
JavaScript property assignment does. -/
def setFieldList : List (String × JVal) → String → JVal → List (String × JVal)
  | [], key, v => [(key, v)]
  | (k, w) :: rest, key, v =>
    if k = key then (k, v) :: rest else (k, w) :: setFieldList rest key v

/-- Property assignment on an object value; assignments onto non-objects
are ignored (the source only ever assigns onto objects). -/
def setField : JVal → String → JVal → JVal
  | .obj fs, key, v => .obj (setFieldList fs key v)
  | t, _, _ => t

/-- Model of one source step of the builtin Object.assign: copy the own
enumerable fields of src onto target.  Undefined, null and primitive
sources contribute nothing, matching the calls in the source where every
source operand is an object, undefined, or the empty-object fallback. -/
def objAssign (target : JVal) : JVal → JVal
  | .obj fs => fs.foldl (fun acc kv => setField acc kv.1 kv.2) target
  | _ => target

end JVal

namespace Json

/-- Decimal digit character for one digit value. -/
def digitChar : Nat → Char
  | 0 => '0' | 1 => '1' | 2 => '2' | 3 => '3' | 4 => '4'
  | 5 => '5' | 6 => '6' | 7 => '7' | 8 => '8' | _ => '9'

/-- Numeric value of a decimal digit character. -/
def charToDigit (c : Char) : Nat := c.toNat - 48

/-- Decimal digit characters of a natural number, most significant first. -/
def natToChars (n : Nat) : List Char :=
  if _h : n < 10 then [digitChar n]
  else natToChars (n / 10) ++ [digitChar (n % 10)]
decreasing_by exact Nat.div_lt_self (by omega) (by omega)

/-- Decimal rendering of an integer, as the builtin JSON.stringify prints
an integral number. -/
def intToChars (n : Int) : List Char :=
  if n < 0 then '-' :: natToChars n.natAbs else natToChars n.natAbs

/-- Escape one character for a JSON string literal.  The builtin escapes
the quote and the backslash; control characters are emitted unescaped
here, which does not change the composite parse-of-stringify semantics
that the source relies on. -/
def escChar (c : Char) : List Char :=
  if c = '"' ∨ c = '\\' then ['\\', c] else [c]

/-- Escape a character list for a JSON string literal. -/
def escapeChars : List Char → List Char
  | [] => []
  | c :: cs => escChar c ++ escapeChars cs

/-- JSON string literal for a string, quotes included. -/
def stringChars (s : String) : List Char :=
  '"' :: (escapeChars s.data ++ ['"'])

/-- Comma-join a list of rendered items. -/
def sepJoin : List (List Char) → List Char
  | [] => []
  | [x] => x
  | x :: xs => x ++ ',' :: sepJoin xs

mutual

/-- Model of the builtin JSON.stringify on a JVal: none models the
undefined result for an unserializable top-level value. -/
def stringifyVal : JVal → Option (List Char)
  | .undefined => none
  | .null => some (("null").data)
  | .bool b => some (if b then ("true").data else ("false").data)
  | .num n => some (intToChars n)
  | .str s => some (stringChars s)
  | .arr xs => some ('[' :: (sepJoin (arrItemList xs) ++ [']']))
  | .obj fs => some ('\x7b' :: (sepJoin (objItemList fs) ++ ['\x7d']))

/-- Rendering of one array element: undefined elements print as null. -/
def itemChars (x : JVal) : List Char :=
  (stringifyVal x).getD (("null").data)

/-- Rendered array elements, in order. -/
def arrItemList : List JVal → List (List Char)
  | [] => []
  | x :: xs => itemChars x :: arrItemList xs

/-- Rendered object fields, in order; fields whose value is unserializable
are dropped, as the builtin drops undefined-valued properties. -/
def objItemList : List (String × JVal) → List (List Char)
  | [] => []
  | (k, v) :: fs =>
    match stringifyVal v with
    | none => objItemList fs
    | some sv => (stringChars k ++ (':' :: sv)) :: objItemList fs

end

/-- Characters produced by stringifying a value (empty for undefined). -/
def scv (v : JVal) : List Char := (stringifyVal v).getD []

mutual

/-- A value is JSON-serializable when it contains no undefined anywhere:
exactly the values on which stringify-then-parse is lossless. -/
def Serializable : JVal → Bool
  | .undefined => false
  | .null => true
  | .bool _ => true
  | .num _ => true
  | .str _ => true
  | .arr xs => serializableList xs
  | .obj fs => serializableFields fs

/-- All members of a list are serializable. -/
def serializableList : List JVal → Bool
  | [] => true
  | x :: xs => Serializable x && serializableList xs

/-- All field values of a field list are serializable. -/
def serializableFields : List (String × JVal) → Bool
  | [] => true
  | (_, v) :: fs => Serializable v && serializableFields fs

end

/-- Body of a JSON string literal up to the closing quote: returns the
unescaped characters and the remaining input. -/
def parseStringChars : List Char → Option (List Char × List Char)
  | [] => none
  | '"' :: rest => some ([], rest)
  | '\\' :: c :: rest => (parseStringChars rest).map (fun p => (c :: p.1, p.2))
  | c :: rest => (parseStringChars rest).map (fun p => (c :: p.1, p.2))

/-- Longest digit prefix of the input and the remaining input. -/
def takeDigits : List Char → List Char × List Char
  | [] => ([], [])
  | c :: cs =>
    if c.isDigit then
      let p := takeDigits cs
      (c :: p.1, p.2)
    else ([], c :: cs)

/-- Value of a big-endian digit character list. -/
def digitsToNat (ds : List Char) : Nat :=
  ds.foldl (fun acc c => 10 * acc + charToDigit c) 0

mutual

/-- Fuel-indexed recursive-descent JSON value parser, modelling the
builtin JSON.parse as used through the transport json() method on the
texts the source produces (no whitespace, integral numbers). -/
def parseVal : Nat → List Char → Option (JVal × List Char)
  | 0, _ => none
  | _ + 1, [] => none
  | f + 1, c :: cs =>
    if c = '"' then
      (parseStringChars cs).map (fun p => (.str (String.mk p.1), p.2))
    else if c = '[' then
      if cs.head? = some ']' then some (.arr [], cs.tail)
      else (parseElems f cs).map (fun p => (.arr p.1, p.2))
    else if c = '\x7b' then
      if cs.head? = some '\x7d' then some (.obj [], cs.tail)
      else (parseFields f cs).map (fun p => (.obj p.1, p.2))
    else if c = '-' then
      let p := takeDigits cs
      if p.1 = [] then none else some (.num (-(digitsToNat p.1 : Int)), p.2)
    else if c.isDigit then
      let p := takeDigits (c :: cs)
      some (.num ((digitsToNat p.1 : Int)), p.2)
    else if c = 'n' then
      if cs.take 3 = ['u', 'l', 'l'] then some (.null, cs.drop 3) else none
    else if c = 't' then
      if cs.take 3 = ['r', 'u', 'e'] then some (.bool true, cs.drop 3) else none
    else if c = 'f' then
      if cs.take 4 = ['a', 'l', 's', 'e'] then some (.bool false, cs.drop 4) else none
    else none

/-- Parse one or more comma-separated array elements up to the closing
bracket. -/
def parseElems : Nat → List Char → Option (List JVal × List Char)
  | 0, _ => none
  | f + 1, cs =>
    match parseVal f cs with
    | none => none
    | some (v, rest) =>
      match rest with
      | ',' :: rest2 => (parseElems f rest2).map (fun p => (v :: p.1, p.2))
      | ']' :: rest2 => some ([v], rest2)
      | _ => none

/-- Parse one or more comma-separated object fields up to the closing
brace. -/
def parseFields : Nat → List Char → Option (List (String × JVal) × List Char)
  | 0, _ => none
  | f + 1, cs =>
    if cs.head? = some '"' then
      match parseStringChars cs.tail with
      | none => none
      | some (k, rest2) =>
        if rest2.head? = some ':' then
          match parseVal f rest2.tail with
          | none => none
          | some (v, rest4) =>
            match rest4 with
            | ',' :: rest5 =>
              (parseFields f rest5).map (fun p => ((String.mk k, v) :: p.1, p.2))
            | '\x7d' :: rest5 => some ([(String.mk k, v)], rest5)
            | _ => none
        else none
    else none

end

/-- Model of the transport json() body decoding: parse the full body text
as one JSON value. -/
def jsonParse (s : String) : Option JVal :=
  match parseVal (s.data.length + 1) s.data with
  | some (v, []) => some v
  | _ => none

/-- The rest of the input does not begin with a digit, so a maximal digit
run ends exactly at the boundary. -/
def headNotDigit : List Char → Bool
  | [] => true
  | c :: _ => !c.isDigit


end Json

/-- Model of the builtin JSON.stringify producing a Lean string; none
models the undefined result on an unserializable top-level value. -/
def jsonStringify (v : JVal) : Option String :=
  (Json.stringifyVal v).map String.mk

namespace JVal

/-- Lodash isUndefined: only the undefined value. -/
def isUndefined : JVal → Bool
  | .undefined => true
  | _ => false

/-- Lookup of a key on a value: field lookup on an object, none otherwise. -/
def lookupJ (v : JVal) (k : String) : Option JVal :=
  match v with
  | .obj fs => lookupField fs k
  | _ => none

/-- First of two optional values, used to express merge precedence. -/
def firstSome (x y : Option JVal) : Option JVal :=
  match x with
  | some v => some v
  | none => y

/-- Last binding of a key in a field list: the binding that survives an
Object.assign copy of the list onto a target. -/
def lookupRev : List (String × JVal) → String → Option JVal
  | [], _ => none
  | (k0, v0) :: rest, k => firstSome (lookupRev rest k) (if k0 = k then some v0 else none)

/-- Field-list form of Object.assign of one object source onto an object
target. -/
def assignFields (a b : List (String × JVal)) : List (String × JVal) :=
  b.foldl (fun acc kv => setFieldList acc kv.1 kv.2) a

/-- Lodash isObject: objects and arrays are objects, primitives are not. -/
def isObject : JVal → Bool
  | .obj _ => true
  | .arr _ => true
  | _ => false

/-- Property read defaulting to undefined; only used under a truthiness
guard that rules out the throwing null and undefined receivers. -/
def getPropD (v : JVal) (k : String) : JVal :=
  (getProp v k).getD .undefined

/-- Fields of the merge source whose key is absent from the merge target:
they are appended after the merged target fields. -/
def newFields (a b : List (String × JVal)) : List (String × JVal) :=
  b.filter (fun kv => (lookupField a kv.1).isNone)

mutual

/-- Per-key value merge of the lodash merge builtin: two objects merge
recursively, an undefined source value keeps the target value, and any
other source value replaces the target value.  Index-wise array merging
is not modelled: no setup call in the claims carries array fields. -/
def mergeValue : JVal → JVal → JVal
  | .obj a, .obj b => .obj (mergeOver a b ++ newFields a b)
  | t, .undefined => t
  | _, s => s

/-- Merge the source fields over the target fields, key by key, keeping
the target key order. -/
def mergeOver : List (String × JVal) → List (String × JVal) → List (String × JVal)
  | [], _ => []
  | (k, av) :: rest, b =>
    (match lookupField b k with
     | some bv => (k, mergeValue av bv)
     | none => (k, av)) :: mergeOver rest b

end

/-- Top-level lodash merge as called in setup: a non-object source
contributes nothing and a non-object target is returned unchanged. -/
def lodashMerge (t s : JVal) : JVal :=
  match t, s with
  | .obj a, .obj b => .obj (mergeOver a b ++ newFields a b)
  | t, _ => t

end JVal

/-- A JavaScript error raised synchronously by the embedded code. -/
inductive JsError where
  | typeError
  | undefinedExpectation (name : String)
  | notStarted
deriving DecidableEq, Repr

/-- A test-level error value flowing through the failure channel, carrying
the message and the stack the source surfaces. -/
structure TestError where
  message : String
  stack : String
deriving DecidableEq, Repr

/-- The response snapshot held by a spec: status, headers, the raw body
text, and the parsed body assigned onto the underscore-body property once
decoding has happened. -/
structure ResponseSnapshot where
  status : Nat
  statusText : String
  headers : List (String × String)
  bodyText : String
  _body : Option JVal
deriving Repr

/-- An expectation handler: invoked with the response snapshot and its
stored arguments; an error result models a thrown assertion failure. -/
def ExpectHandler := ResponseSnapshot → List JVal → Except TestError Unit

/-- A registered assertion closure, summarised by the errors it forwards
to the failure channel for a given response snapshot. -/
def ExpectClosure := ResponseSnapshot → List TestError

/-- The registry of named expectation handlers (the external expects
module consulted by _getExpectRunner). -/
def Registry := String → Option ExpectHandler

/-- Default timeout constant of the module. -/
def TIMEOUT_DEFAULT : JVal := .num 5000

/-- The per-spec mutable state of a FrisbySpec instance.  The started
flag models whether the underscore-fetch root task has been assigned. -/
structure SpecState where
  started : Bool
  _expects : List ExpectClosure
  _expectError : Option (TestError → JVal)
  _requestUrl : Option String
  _requestParams : Option JVal
  _response : Option ResponseSnapshot
  _timeout : JVal
  _setupDefaults : JVal

namespace FrisbySpec

/-- The constructor: no root task, no expectations, default timeout,
empty setup defaults. -/
def constructor : SpecState :=
  { started := false, _expects := [], _expectError := none,
    _requestUrl := none, _requestParams := none, _response := none,
    _timeout := TIMEOUT_DEFAULT, _setupDefaults := JVal.obj [] }

/-- Model of setup: replace or deep-merge the shared defaults, then
unconditionally read request.timeout from the result.  Reading request on
a defaults object without that key yields undefined and the following
timeout read throws a TypeError.  In the source the defaults assignment
happens before the throwing read; the partially mutated state of a throw
is not observed by anything modelled here. -/
def setup (st : SpecState) (opts : JVal) (replace : Bool) : Except JsError SpecState :=
  let defaults := if replace then opts else JVal.lodashMerge st._setupDefaults opts
  match JVal.getProp defaults ("request") with
  | none => .error .typeError
  | some req =>
    match JVal.getProp req ("timeout") with
    | none => .error .typeError
    | some t =>
      .ok { st with
        _setupDefaults := defaults,
        _timeout := if t.truthy then t else TIMEOUT_DEFAULT }

/-- Result of the timeout getter/setter: a returned timeout value, or the
spec itself for chaining. -/
inductive TimeoutResult where
  | value (v : JVal)
  | spec (st : SpecState)

/-- Model of the timeout getter/setter.  A falsy argument selects the
getter branch; the getter prefers a truthy setup-defaults request timeout
over the per-spec timeout. -/
def timeout (st : SpecState) (t : JVal) : Except JsError TimeoutResult :=
  if !t.truthy then
    match JVal.getProp st._setupDefaults ("request") with
    | none => .error .typeError
    | some req =>
      if req.truthy && (req.getPropD ("timeout")).truthy then
        .ok (.value (req.getPropD ("timeout")))
      else .ok (.value st._timeout)
  else
    .ok (.spec { st with _timeout := t })

/-- The merged fetch parameters: Object.assign of the empty object, the
setup-defaults request fragment, and the per-call parameters. -/
def fetchParams (st : SpecState) (params : JVal) : Except JsError JVal :=
  match JVal.getProp st._setupDefaults ("request") with
  | none => .error .typeError
  | some req =>
    .ok (JVal.objAssign (JVal.objAssign (JVal.obj []) req)
      (if params.truthy then params else JVal.obj []))

/-- Model of fetch up to issuing the network request: build the merged
request descriptor and create the root task. -/
def fetch (st : SpecState) (url : String) (params : JVal) : Except JsError SpecState :=
  match fetchParams st params with
  | .error e => .error e
  | .ok fp =>
    .ok { st with started := true, _requestUrl := some url, _requestParams := some fp }

/-- GET convenience wrapper: fetch with no parameters. -/
def get (st : SpecState) (url : String) : Except JsError SpecState :=
  fetch st url .undefined

/-- DELETE convenience wrapper: fetch with a lowercase delete method. -/
def del (st : SpecState) (url : String) : Except JsError SpecState :=
  fetch st url (.obj [(("method"), .str ("delete"))])

/-- Model of _requestWithBody: auto-encode an object body, auto-set the
whole parameter object as the body when neither body nor headers were
given, then fetch with the method-first Object.assign merge. -/
def _requestWithBody (st : SpecState) (method url : String) (params : JVal) :
    Except JsError SpecState :=
  let params1 :=
    if params.truthy && (params.getPropD ("body")).isObject then
      params.setField ("body")
        (.str ((jsonStringify (params.getPropD ("body"))).getD ("")))
    else params
  let postParams :=
    if params1.truthy && (params1.getPropD ("body")).isUndefined &&
        (params1.getPropD ("headers")).isUndefined then
      (JVal.obj [(("method"), .str method)]).setField ("body")
        (.str ((jsonStringify params1).getD ("")))
    else JVal.obj [(("method"), .str method)]
  fetch st url (JVal.objAssign postParams (if params1.truthy then params1 else JVal.obj []))

/-- POST convenience wrapper. -/
def post (st : SpecState) (url : String) (params : JVal) : Except JsError SpecState :=
  _requestWithBody st ("POST") url params

/-- PUT convenience wrapper. -/
def put (st : SpecState) (url : String) (params : JVal) : Except JsError SpecState :=
  _requestWithBody st ("PUT") url params

/-- PATCH convenience wrapper. -/
def patch (st : SpecState) (url : String) (params : JVal) : Except JsError SpecState :=
  _requestWithBody st ("PATCH") url params

end FrisbySpec
/-- Presence of the ambient host test-runner primitives consulted by the
failure channel: a fail function and an expect assertion primitive. -/
structure HostEnv where
  hasFail : Bool
  hasExpect : Bool
deriving DecidableEq, Repr

/-- What the failure channel did with an error. -/
inductive FailureOutcome where
  | customHandled (e : TestError)
  | failCalled (e : TestError)
  | expectForcedFailure (stack : String)
  | rethrown (e : TestError)
  | thisUndefinedTypeError
deriving DecidableEq, Repr

namespace FrisbySpec

/-- Model of _fetchErrorHandler.  The first argument is the receiver the
handler was invoked with: none models an invocation through an unbound
function reference, where strict-mode this is undefined and the first
property read of the underscore-expectError field throws a TypeError. -/
def _fetchErrorHandler (thisCtx : Option SpecState) (env : HostEnv) (err : TestError) :
    FailureOutcome :=
  match thisCtx with
  | none => .thisUndefinedTypeError
  | some st =>
    match st._expectError with
    | some _ => .customHandled err
    | none =>
      if env.hasFail then .failCalled err
      else if env.hasExpect then .expectForcedFailure err.stack
      else .rethrown err

/-- Rejection wiring of fetch and then: the source passes the handler
bound to the spec. -/
def fetchRejectionOutcome (st : SpecState) (env : HostEnv) (err : TestError) :
    FailureOutcome :=
  _fetchErrorHandler (some st) env err

/-- Rejection wiring of fromJSON: the source passes the raw function
reference to catch without binding it to the spec. -/
def fromJSONRejectionOutcome (_st : SpecState) (env : HostEnv) (err : TestError) :
    FailureOutcome :=
  _fetchErrorHandler none env err

/-- Model of the catch method: register the custom error handler. -/
def catchFn (st : SpecState) (fn : TestError → JVal) : SpecState :=
  { st with _expectError := some fn }

/-- Model of _ensureHasFetched: a configuration error when the root task
does not exist yet. -/
def _ensureHasFetched (st : SpecState) : Except JsError Unit :=
  if st.started then .ok () else .error .notStarted

/-- Model of _addExpect: append the closure to the pending list. -/
def _addExpect (st : SpecState) (fn : ExpectClosure) : SpecState :=
  { st with _expects := st._expects ++ [fn] }

/-- Argument accepted by expect and expectNot: a registry name or an
inline handler function. -/
inductive ExpectArg where
  | named (name : String)
  | inlineFn (h : ExpectHandler)

/-- The closure built inside _getExpectRunner: run the handler over the
response and the stored arguments; a thrown error is forwarded to the
failure channel when a pass was expected and buried otherwise.  The
result lists the errors handed to the failure channel. -/
def expectRunnerClosure (h : ExpectHandler) (args : List JVal) (expectPass : Bool) :
    ExpectClosure :=
  fun response =>
    match h response args with
    | .ok _ => []
    | .error e => if expectPass = true then [e] else []

/-- Model of _getExpectRunner: resolve the handler (an inline function is
used directly, a name is looked up in the registry and an unknown name
throws), then append the expectation closure. -/
def _getExpectRunner (registry : Registry) (st : SpecState) (expectName : ExpectArg)
    (expectArgs : List JVal) (expectPass : Bool) : Except JsError SpecState :=
  match expectName with
  | .inlineFn h => .ok (_addExpect st (expectRunnerClosure h expectArgs expectPass))
  | .named n =>
    match registry n with
    | some h => .ok (_addExpect st (expectRunnerClosure h expectArgs expectPass))
    | none => .error (.undefinedExpectation n)

/-- Model of expect: register a must-pass expectation. -/
def expect (registry : Registry) (st : SpecState) (expectName : ExpectArg)
    (expectArgs : List JVal) : Except JsError SpecState :=
  _getExpectRunner registry st expectName expectArgs true

/-- Model of expectNot: register a must-fail expectation. -/
def expectNot (registry : Registry) (st : SpecState) (expectName : ExpectArg)
    (expectArgs : List JVal) : Except JsError SpecState :=
  _getExpectRunner registry st expectName expectArgs false

end FrisbySpec

/-- Outcome of the root-task resolution: the settled state together with
the response snapshot each registered assertion closure is invoked with,
or the failure outcome of the rejection path. -/
inductive ResolutionOutcome where
  | resolved (st : SpecState) (expectArgs : List ResponseSnapshot)
  | rejected (o : FailureOutcome)

/-- Opaque stand-in for the rejection error produced by the transport
when the body text is not valid JSON. -/
def jsonDecodeError : TestError :=
  { message := ("invalid json response body"), stack := ("") }

namespace FrisbySpec

/-- Model of fromJSON: stringify the value, wrap it as a status-200 JSON
response, decode the body back through the transport json() method, store
the parsed body on the snapshot and run the registered assertions.  When
the builtin stringify returns undefined (an unserializable top-level
value), the Response options literal reads jsonString.length and throws a
synchronous TypeError before the chain or any catch handler exists.  A
decode rejection inside the chain would reach the catch handler that
fromJSON installs without binding it; this branch mirrors that wiring and
is reached by no input whose stringification exists, since every produced
JSON text decodes. -/
def fromJSON (st : SpecState) (env : HostEnv) (json : JVal) :
    Except JsError ResolutionOutcome :=
  match jsonStringify json with
  | none => .error .typeError
  | some jsonString =>
    let response : ResponseSnapshot :=
      { status := 200, statusText := ("OK"),
        headers := [(("Content-Type"), ("application/json"))],
        bodyText := jsonString, _body := none }
    let st1 := { st with started := true, _response := some response }
    match Json.jsonParse jsonString with
    | some body =>
      let response2 := { response with _body := some body }
      let st2 := { st1 with _response := some response2 }
      .ok (.resolved st2 (st2._expects.map (fun _ => response2)))
    | none => .ok (.rejected (fromJSONRejectionOutcome st1 env jsonDecodeError))

end FrisbySpec

/-- A network response as delivered by the transport: status, headers and
the raw body text. -/
structure NetResponse where
  status : Nat
  statusText : String
  headers : List (String × String)
  textBody : String
deriving DecidableEq, Repr

/-- Characters of a string lowered, for case-insensitive header names. -/
def lowerChars (s : String) : List Char := s.data.map Char.toLower

/-- Case-insensitive header lookup as the fetch Headers class performs. -/
def headersGet (hs : List (String × String)) (name : String) : Option String :=
  (hs.find? (fun kv => lowerChars kv.1 = lowerChars name)).map Prod.snd

/-- Substring test modelling the bitwise-not of indexOf being truthy. -/
def containsSubstr (s pat : String) : Bool :=
  s.data.tails.any (fun t => pat.data.isPrefixOf t)

/-- The auto-parse condition of fetch: the response has a Content-Type
header and its value contains json. -/
def jsonContentType (r : NetResponse) : Bool :=
  match headersGet r.headers ("Content-Type") with
  | some ct => containsSubstr ct ("json")
  | none => false

namespace FrisbySpec

/-- Model of the post-resolution step of fetch: store the response, decode
the body as JSON under a JSON content type and as raw text otherwise,
store the parsed body on the snapshot, then run the registered assertions
against it; a JSON decode rejection reaches the handler that fetch bound
to the spec. -/
def fetchResolve (st : SpecState) (env : HostEnv) (r : NetResponse) : ResolutionOutcome :=
  let snapshot : ResponseSnapshot :=
    { status := r.status, statusText := r.statusText,
      headers := r.headers, bodyText := r.textBody, _body := none }
  let st1 := { st with _response := some snapshot }
  match (if jsonContentType r then Json.jsonParse r.textBody
         else some (JVal.str r.textBody)) with
  | some body =>
    let response2 := { snapshot with _body := some body }
    let st2 := { st1 with _response := some response2 }
    .resolved st2 (st2._expects.map (fun _ => response2))
  | none => .rejected (fetchRejectionOutcome st1 env jsonDecodeError)

end FrisbySpec

/-- A chained continuation result as the then machinery distinguishes it:
a plain value, a promise, or another FrisbySpec.  The payload of the two
asynchronous constructors is the value that nested result resolves to. -/
inductive ChainVal where
  | val (v : JVal)
  | promise (resolved : JVal)
  | spec (resolved : JVal)
deriving Repr

/-- A user continuation passed to then. -/
def ThenCont := JVal → ChainVal

namespace ChainVal

/-- The truthy-and-instance guard of then on the stored last result. -/
def isAsync : ChainVal → Bool
  | .promise _ => true
  | .spec _ => true
  | .val _ => false

end ChainVal

/-- The argument a continuation is invoked with: the nested resolved value
when the stored last result is asynchronous, otherwise the root response
body that every handler attached to the root task receives. -/
def curInput (B : JVal) : ChainVal → JVal
  | .promise r => r
  | .spec r => r
  | .val _ => B

/-- The stored last result after one handler: in the asynchronous branch
the source chains onto it without reassigning it, in the synchronous
branch it becomes the continuation result. -/
def nextLast (B : JVal) (last : ChainVal) (f : ThenCont) : ChainVal :=
  match last with
  | .promise _ => last
  | .spec _ => last
  | .val _ => f B

/-- The arguments that successive then continuations receive once the
root task resolved with body B, starting from a given last result. -/
def invokedWithFrom (B : JVal) : ChainVal → List ThenCont → List JVal
  | _, [] => []
  | last, f :: fs => curInput B last :: invokedWithFrom B (nextLast B last f) fs

/-- The constructor leaves the last result undefined. -/
def initialLast : ChainVal := .val .undefined

/-- The arguments of the continuations of a whole chain of then calls on
a freshly started spec. -/
def invokedWith (B : JVal) (fs : List ThenCont) : List JVal :=
  invokedWithFrom B initialLast fs

/-- Whether a defaults value is an object carrying a request field. -/
def hasRequestField (defaults : JVal) : Bool :=
  match defaults with
  | .obj fs => (JVal.lookupField fs ("request")).isSome
  | _ => false

/-- Registry with no named handlers. -/
def emptyRegistry : Registry := fun _ => none

/-- Expectation handler that always succeeds. -/
def trivialHandler : ExpectHandler := fun _ _ => .ok ()

/-- Sample assertion failure used in concrete runs. -/
def sampleFailure : TestError :=
  { message := ("assertion failed"), stack := ("at spec") }

/-- Expectation handler that always throws. -/
def throwingHandler : ExpectHandler := fun _ _ => .error sampleFailure

/-- Stand-in custom error handler registered through catch. -/
def handlerStub : TestError → JVal := fun _ => .undefined

/-- Continuation returning a promise resolving to one. -/
def contPromise1 : ThenCont := fun _ => .promise (.num 1)

/-- Continuation returning a promise resolving to two. -/
def contPromise2 : ThenCont := fun _ => .promise (.num 2)

/-- Continuation returning its argument synchronously. -/
def contId : ThenCont := fun v => .val v

/-- Continuation returning undefined, as a side-effect-only step does. -/
def contVoid : ThenCont := fun _ => .val .undefined

/-- A sample response snapshot for concrete runs. -/
def sampleResponse : ResponseSnapshot :=
  { status := 200, statusText := ("OK"), headers := [], bodyText := (""), _body := none }

namespace JVal

/-- Structural induction principle for JVal that provides hypotheses for
the members of nested lists. -/
theorem inductionOn (P : JVal → Prop)
    (hundef : P .undefined) (hnull : P .null) (hbool : ∀ b, P (.bool b))
    (hnum : ∀ n, P (.num n)) (hstr : ∀ s, P (.str s))
    (harr : ∀ xs, (∀ x ∈ xs, P x) → P (.arr xs))
    (hobj : ∀ fs, (∀ kv ∈ fs, P kv.2) → P (.obj fs)) : ∀ v, P v
  | .undefined => hundef
  | .null => hnull
  | .bool b => hbool b
  | .num n => hnum n
  | .str s => hstr s
  | .arr xs => harr xs (fun x hx =>
      have : sizeOf x < 1 + sizeOf xs :=
        Nat.lt_trans (List.sizeOf_lt_of_mem hx) (by omega)
      inductionOn P hundef hnull hbool hnum hstr harr hobj x)
  | .obj fs => hobj fs (fun kv hkv =>
      have h1 : sizeOf kv.2 < sizeOf kv := by
        obtain ⟨k, v⟩ := kv; simp
      have : sizeOf kv.2 < 1 + sizeOf fs :=
        Nat.lt_trans (Nat.lt_trans h1 (List.sizeOf_lt_of_mem hkv)) (by omega)
      inductionOn P hundef hnull hbool hnum hstr harr hobj kv.2)
termination_by v => sizeOf v

end JVal

namespace Json

/-- The digit-character table only produces digit characters. -/
theorem digitChar_isDigit (d : Nat) : (digitChar d).isDigit = true := by
  unfold digitChar
  split <;> decide

/-- Reading back a digit character below ten gives the digit. -/
theorem charToDigit_digitChar (d : Nat) (h : d < 10) :
    charToDigit (digitChar d) = d := by
  interval_cases d <;> decide

/-- A digit character differs from any non-digit character. -/
theorem ne_of_isDigit {c x : Char} (h : c.isDigit = true) (hx : x.isDigit = false) :
    c ≠ x := by
  intro e
  rw [e, hx] at h
  cases h

/-- Every character printed for a natural number is a digit. -/
theorem natToChars_digits (n : Nat) : ∀ c ∈ natToChars n, c.isDigit = true := by
  induction n using natToChars.induct with
  | case1 n h =>
    intro c hc
    rw [natToChars, dif_pos h] at hc
    simp at hc
    rw [hc]
    exact digitChar_isDigit n
  | case2 n h ih =>
    intro c hc
    rw [natToChars, dif_neg h] at hc
    rcases List.mem_append.mp hc with h1 | h2
    · exact ih c h1
    · simp at h2
      rw [h2]
      exact digitChar_isDigit (n % 10)

/-- The decimal rendering of a natural number is nonempty. -/
theorem natToChars_ne_nil (n : Nat) : natToChars n ≠ [] := by
  rw [natToChars]
  split
  · simp
  · simp

/-- Folding one more digit onto a big-endian digit list. -/
theorem digitsToNat_append (xs : List Char) (c : Char) :
    digitsToNat (xs ++ [c]) = 10 * digitsToNat xs + charToDigit c := by
  unfold digitsToNat
  rw [List.foldl_append]
  rfl

/-- Reading back the decimal rendering of a natural number. -/
theorem digitsToNat_natToChars (n : Nat) : digitsToNat (natToChars n) = n := by
  induction n using natToChars.induct with
  | case1 n h =>
    rw [natToChars, dif_pos h]
    show digitsToNat ([] ++ [digitChar n]) = n
    rw [digitsToNat_append, charToDigit_digitChar n h]
    simp [digitsToNat]
  | case2 n h ih =>
    rw [natToChars, dif_neg h, digitsToNat_append, ih,
      charToDigit_digitChar (n % 10) (Nat.mod_lt n (by omega))]
    omega

/-- A maximal digit run stops exactly at a non-digit boundary. -/
theorem takeDigits_append (ds : List Char) (rest : List Char)
    (hds : ∀ c ∈ ds, c.isDigit = true) (hrest : headNotDigit rest = true) :
    takeDigits (ds ++ rest) = (ds, rest) := by
  induction ds with
  | nil =>
    cases rest with
    | nil => rfl
    | cons c cs =>
      simp only [headNotDigit, Bool.not_eq_true'] at hrest
      simp [takeDigits, hrest]
  | cons d ds ih =>
    have hd : d.isDigit = true := hds d (by simp)
    simp [takeDigits, hd, ih (fun c hc => hds c (by simp [hc]))]

/-- Parsing a string body undoes the escaping. -/
theorem parseStringChars_escape (s : List Char) (rest : List Char) :
    parseStringChars (escapeChars s ++ ('"' :: rest)) = some (s, rest) := by
  induction s with
  | nil => rfl
  | cons c cs ih =>
    by_cases hc : c = '"' ∨ c = '\\'
    · have : escapeChars (c :: cs) = '\\' :: c :: escapeChars cs := by
        simp [escapeChars, escChar, hc]
      rw [this]
      simp [parseStringChars, ih]
    · have h1 : escapeChars (c :: cs) = c :: escapeChars cs := by
        simp [escapeChars, escChar, hc]
      push_neg at hc
      rw [h1]
      rw [List.cons_append, parseStringChars.eq_def]
      split
      · simp_all
      · simp_all
      · simp_all
      · simp_all [ih]

/-- Stringify succeeds on every serializable value. -/
theorem stringify_eq_some (v : JVal) (h : Serializable v = true) :
    stringifyVal v = some (scv v) := by
  cases v
  case undefined => simp [Serializable] at h
  all_goals simp [scv, stringifyVal]

/-- Serializable array elements render as their own stringification. -/
theorem itemChars_eq_scv (v : JVal) (h : Serializable v = true) :
    itemChars v = scv v := by
  rw [itemChars, stringify_eq_some v h]
  rfl

/-- The stringification of a serializable value is nonempty and never
begins with a closing bracket. -/
theorem scv_head (v : JVal) (h : Serializable v = true) :
    ∃ c cs, scv v = c :: cs ∧ c ≠ ']' := by
  cases v with
  | undefined => simp [Serializable] at h
  | null => exact ⟨'n', ['u', 'l', 'l'], by simp [scv, stringifyVal], by decide⟩
  | bool b =>
    cases b
    · exact ⟨'f', ['a', 'l', 's', 'e'], by simp [scv, stringifyVal], by decide⟩
    · exact ⟨'t', ['r', 'u', 'e'], by simp [scv, stringifyVal], by decide⟩
  | num n =>
    rcases Int.lt_or_le n 0 with hn | hn
    · exact ⟨'-', natToChars n.natAbs, by simp [scv, stringifyVal, intToChars, hn], by decide⟩
    · obtain ⟨c, cs, hc⟩ : ∃ c cs, natToChars n.natAbs = c :: cs := by
        cases hnn : natToChars n.natAbs with
        | nil => exact absurd hnn (natToChars_ne_nil _)
        | cons a l => exact ⟨a, l, rfl⟩
      refine ⟨c, cs, ?_, ?_⟩
      · simp [scv, stringifyVal, intToChars, Int.not_lt.mpr hn, hc]
      · exact ne_of_isDigit (natToChars_digits _ c (by rw [hc]; simp)) (by decide)
  | str s => exact ⟨'"', escapeChars s.data ++ ['"'], by simp [scv, stringifyVal, stringChars], by decide⟩
  | arr xs => exact ⟨'[', sepJoin (arrItemList xs) ++ [']'], by simp [scv, stringifyVal], by decide⟩
  | obj fs => exact ⟨'\x7b', sepJoin (objItemList fs) ++ ['\x7d'], by simp [scv, stringifyVal], by decide⟩

/-- Parsing the rendered elements of a nonempty serializable array
recovers the elements. -/
theorem parseElems_scv (xs : List JVal)
    (IH : ∀ x ∈ xs, Serializable x = true → ∀ f rest, (scv x).length + 1 ≤ f →
      headNotDigit rest = true → parseVal f (scv x ++ rest) = some (x, rest))
    (hser : serializableList xs = true) (hne : xs ≠ []) :
    ∀ f rest, (sepJoin (arrItemList xs)).length + 2 ≤ f →
      parseElems f (sepJoin (arrItemList xs) ++ (']' :: rest)) = some (xs, rest) := by
  induction xs with
  | nil => exact absurd rfl hne
  | cons x xs ihx =>
    intro f rest hf
    simp only [serializableList, Bool.and_eq_true] at hser
    obtain ⟨hx, hxs⟩ := hser
    have hitem : itemChars x = scv x := itemChars_eq_scv x hx
    cases xs with
    | nil =>
      have hsj : sepJoin (arrItemList [x]) = scv x := by
        simp [arrItemList, sepJoin, hitem]
      rw [hsj] at hf ⊢
      obtain ⟨f', rfl⟩ : ∃ f', f = f' + 1 := ⟨f - 1, by omega⟩
      have hx1 : parseVal f' (scv x ++ (']' :: rest)) = some (x, ']' :: rest) :=
        IH x (by simp) hx f' (']' :: rest) (by omega) (by rfl)
      simp [parseElems, hx1]
    | cons y ys =>
      have hsj : sepJoin (arrItemList (x :: y :: ys)) =
          scv x ++ (',' :: sepJoin (arrItemList (y :: ys))) := by
        simp [arrItemList, sepJoin, hitem]
      rw [hsj] at hf ⊢
      obtain ⟨f', rfl⟩ : ∃ f', f = f' + 1 := ⟨f - 1, by omega⟩
      rw [List.length_append] at hf
      simp only [List.length_cons] at hf
      have hx1 : parseVal f' (scv x ++
          (',' :: (sepJoin (arrItemList (y :: ys)) ++ (']' :: rest)))) =
          some (x, ',' :: (sepJoin (arrItemList (y :: ys)) ++ (']' :: rest))) :=
        IH x (by simp) hx f' _ (by omega) (by rfl)
      have hrec : parseElems f' (sepJoin (arrItemList (y :: ys)) ++ (']' :: rest)) =
          some (y :: ys, rest) :=
        ihx (fun z hz => IH z (by simp [hz])) hxs (by simp) f' rest (by omega)
      simp only [List.append_assoc, List.cons_append]
      simp [parseElems, hx1, hrec]

/-- Parsing the rendered fields of a nonempty serializable object
recovers the fields. -/
theorem parseFields_scv (fs : List (String × JVal))
    (IH : ∀ kv ∈ fs, Serializable kv.2 = true → ∀ f rest, (scv kv.2).length + 1 ≤ f →
      headNotDigit rest = true → parseVal f (scv kv.2 ++ rest) = some (kv.2, rest))
    (hser : serializableFields fs = true) (hne : fs ≠ []) :
    ∀ f rest, (sepJoin (objItemList fs)).length + 2 ≤ f →
      parseFields f (sepJoin (objItemList fs) ++ ('\x7d' :: rest)) = some (fs, rest) := by
  induction fs with
  | nil => exact absurd rfl hne
  | cons kv fs ihf =>
    obtain ⟨k, v⟩ := kv
    intro f rest hf
    simp only [serializableFields, Bool.and_eq_true] at hser
    obtain ⟨hv, hfs⟩ := hser
    have hitem : objItemList ((k, v) :: fs) =
        (stringChars k ++ (':' :: scv v)) :: objItemList fs := by
      rw [objItemList, stringify_eq_some v hv]
    cases hcase : objItemList fs with
    | nil =>
      -- all remaining fields rendered empty means fs itself must be empty
      have hfs_nil : fs = [] := by
        cases fs with
        | nil => rfl
        | cons kw fs' =>
          obtain ⟨k', v'⟩ := kw
          simp only [serializableFields, Bool.and_eq_true] at hfs
          rw [objItemList, stringify_eq_some v' hfs.1] at hcase
          cases hcase
      subst hfs_nil
      have hsj : sepJoin (objItemList [(k, v)]) = stringChars k ++ (':' :: scv v) := by
        rw [hitem, hcase]
        rfl
      rw [hsj] at hf ⊢
      obtain ⟨f', rfl⟩ : ∃ f', f = f' + 1 := ⟨f - 1, by omega⟩
      simp only [stringChars, List.cons_append, List.append_assoc] at hf ⊢
      have hkey : parseStringChars (escapeChars k.data ++ ('"' :: (':' :: (scv v ++ ('\x7d' :: rest))))) =
          some (k.data, ':' :: (scv v ++ ('\x7d' :: rest))) :=
        parseStringChars_escape k.data _
      have hval : parseVal f' (scv v ++ ('\x7d' :: rest)) = some (v, '\x7d' :: rest) := by
        apply IH (k, v) (by simp) hv f' _ ?_ (by rfl)
        show (scv v).length + 1 ≤ f'
        simp only [List.length_append, List.length_cons] at hf
        omega
      simp [parseFields, hkey, hval]
    | cons i is =>
      have hne2 : fs ≠ [] := by
        intro e
        rw [e] at hcase
        simp [objItemList] at hcase
      have hsj : sepJoin (objItemList ((k, v) :: fs)) =
          (stringChars k ++ (':' :: scv v)) ++ (',' :: sepJoin (objItemList fs)) := by
        rw [hitem, hcase]
        rfl
      rw [hsj] at hf ⊢
      obtain ⟨f', rfl⟩ : ∃ f', f = f' + 1 := ⟨f - 1, by omega⟩
      simp only [stringChars, List.cons_append, List.append_assoc] at hf ⊢
      have hkey : parseStringChars (escapeChars k.data ++ ('"' :: (':' :: (scv v ++
          (',' :: (sepJoin (objItemList fs) ++ ('\x7d' :: rest))))))) =
          some (k.data, ':' :: (scv v ++
            (',' :: (sepJoin (objItemList fs) ++ ('\x7d' :: rest))))) :=
        parseStringChars_escape k.data _
      simp only [List.length_append, List.length_cons] at hf
      have hval : parseVal f' (scv v ++ (',' :: (sepJoin (objItemList fs) ++ ('\x7d' :: rest)))) =
          some (v, ',' :: (sepJoin (objItemList fs) ++ ('\x7d' :: rest))) := by
        apply IH (k, v) (by simp) hv f' _ ?_ (by rfl)
        show (scv v).length + 1 ≤ f'
        omega
      have hrec : parseFields f' (sepJoin (objItemList fs) ++ ('\x7d' :: rest)) =
          some (fs, rest) :=
        ihf (fun z hz => IH z (by simp [hz])) hfs hne2 f' rest (by omega)
      simp [parseFields, hkey, hval, hrec]

/-- Parsing the stringification of a serializable value recovers the
value and leaves the rest of the input untouched. -/
theorem parse_scv : ∀ v : JVal, Serializable v = true → ∀ f rest,
    (scv v).length + 1 ≤ f → headNotDigit rest = true →
    parseVal f (scv v ++ rest) = some (v, rest) := by
  intro v
  induction v using JVal.inductionOn with
  | hundef => intro h; simp [Serializable] at h
  | hnull =>
    intro _ f rest hf _
    have hs : scv JVal.null = ['n', 'u', 'l', 'l'] := by simp [scv, stringifyVal]
    rw [hs] at hf ⊢
    obtain ⟨f', rfl⟩ : ∃ f', f = f' + 1 := ⟨f - 1, by omega⟩
    rfl
  | hbool b =>
    intro _ f rest hf _
    cases b
    · have hs : scv (JVal.bool false) = ['f', 'a', 'l', 's', 'e'] := by
        simp [scv, stringifyVal]
      rw [hs] at hf ⊢
      obtain ⟨f', rfl⟩ : ∃ f', f = f' + 1 := ⟨f - 1, by omega⟩
      rfl
    · have hs : scv (JVal.bool true) = ['t', 'r', 'u', 'e'] := by
        simp [scv, stringifyVal]
      rw [hs] at hf ⊢
      obtain ⟨f', rfl⟩ : ∃ f', f = f' + 1 := ⟨f - 1, by omega⟩
      rfl
  | hnum n =>
    intro _ f rest hf hrest
    have hs : scv (JVal.num n) = intToChars n := by simp [scv, stringifyVal]
    rw [hs] at hf ⊢
    rcases Int.lt_or_le n 0 with hn | hn
    · rw [intToChars, if_pos hn] at hf ⊢
      obtain ⟨f', rfl⟩ : ∃ f', f = f' + 1 := ⟨f - 1, by omega⟩
      have hunf : parseVal (f' + 1) ('-' :: (natToChars n.natAbs ++ rest)) =
          (let p := takeDigits (natToChars n.natAbs ++ rest)
           if p.1 = [] then none
           else some (JVal.num (-(digitsToNat p.1 : Int)), p.2)) := rfl
      rw [List.cons_append, hunf,
        takeDigits_append _ _ (natToChars_digits n.natAbs) hrest]
      simp [natToChars_ne_nil, digitsToNat_natToChars]
      rw [abs_of_neg hn, neg_neg]
    · rw [intToChars, if_neg (Int.not_lt.mpr hn)] at hf ⊢
      obtain ⟨c, cs, hc⟩ : ∃ c cs, natToChars n.natAbs = c :: cs := by
        cases hnn : natToChars n.natAbs with
        | nil => exact absurd hnn (natToChars_ne_nil _)
        | cons a l => exact ⟨a, l, rfl⟩
      have hdig : ∀ x ∈ c :: cs, x.isDigit = true := by
        rw [← hc]; exact natToChars_digits n.natAbs
      have hcd : c.isDigit = true := hdig c (by simp)
      rw [hc] at hf ⊢
      obtain ⟨f', rfl⟩ : ∃ f', f = f' + 1 := ⟨f - 1, by omega⟩
      rw [List.cons_append, parseVal]
      rw [if_neg (ne_of_isDigit hcd (by decide)),
        if_neg (ne_of_isDigit hcd (by decide)),
        if_neg (ne_of_isDigit hcd (by decide)),
        if_neg (ne_of_isDigit hcd (by decide)),
        if_pos hcd]
      show (let p := takeDigits (c :: (cs ++ rest))
            some (JVal.num ((digitsToNat p.1 : Int)), p.2)) = some (JVal.num n, rest)
      rw [← List.cons_append, takeDigits_append _ _ hdig hrest]
      simp only []
      rw [← hc, digitsToNat_natToChars]
      rw [Int.natAbs_of_nonneg hn]
  | hstr s =>
    intro _ f rest hf _
    have hs : scv (JVal.str s) = '"' :: (escapeChars s.data ++ ['"']) := by
      simp [scv, stringifyVal, stringChars]
    rw [hs] at hf ⊢
    obtain ⟨f', rfl⟩ : ∃ f', f = f' + 1 := ⟨f - 1, by omega⟩
    have hunf : parseVal (f' + 1) ('"' :: (escapeChars s.data ++ ('"' :: rest))) =
        (parseStringChars (escapeChars s.data ++ ('"' :: rest))).map
          (fun p => (JVal.str (String.mk p.1), p.2)) := rfl
    simp only [List.cons_append, List.nil_append, List.append_assoc]
    rw [hunf, parseStringChars_escape]
    rfl
  | harr xs ih =>
    intro hser f rest hf _
    rw [show Serializable (JVal.arr xs) = serializableList xs from rfl] at hser
    have hs : scv (JVal.arr xs) = '[' :: (sepJoin (arrItemList xs) ++ [']']) := by
      simp [scv, stringifyVal]
    rw [hs] at hf ⊢
    cases xs with
    | nil =>
      have hj : sepJoin (arrItemList ([] : List JVal)) = [] := by
        simp [arrItemList, sepJoin]
      rw [hj] at hf ⊢
      obtain ⟨f', rfl⟩ : ∃ f', f = f' + 1 := ⟨f - 1, by omega⟩
      rfl
    | cons x xs' =>
      obtain ⟨f', rfl⟩ : ∃ f', f = f' + 1 := ⟨f - 1, by omega⟩
      have hx : Serializable x = true := by
        simp only [serializableList, Bool.and_eq_true] at hser
        exact hser.1
      obtain ⟨c0, cs0, hc0, hc0ne⟩ := scv_head x hx
      obtain ⟨t, ht⟩ : ∃ t, sepJoin (arrItemList (x :: xs')) = c0 :: t := by
        cases xs' with
        | nil =>
          refine ⟨cs0, ?_⟩
          simp [arrItemList, sepJoin, itemChars_eq_scv x hx, hc0]
        | cons y ys =>
          refine ⟨cs0 ++ (',' :: sepJoin (arrItemList (y :: ys))), ?_⟩
          have : sepJoin (arrItemList (x :: y :: ys)) =
              scv x ++ (',' :: sepJoin (arrItemList (y :: ys))) := by
            simp [arrItemList, sepJoin, itemChars_eq_scv x hx]
          rw [this, hc0]
          rfl
      have hunf : parseVal (f' + 1) ('[' :: ((c0 :: t) ++ (']' :: rest))) =
          (if ((c0 :: t) ++ (']' :: rest)).head? = some ']'
           then some (JVal.arr [], ((c0 :: t) ++ (']' :: rest)).tail)
           else (parseElems f' ((c0 :: t) ++ (']' :: rest))).map
             (fun p => (JVal.arr p.1, p.2))) := rfl
      have hmain : parseElems f' (sepJoin (arrItemList (x :: xs')) ++ (']' :: rest)) =
          some (x :: xs', rest) := by
        apply parseElems_scv (x :: xs') ih hser (by simp) f' rest
        simp only [List.length_append, List.length_cons, List.length_nil] at hf
        omega
      calc parseVal (f' + 1) ('[' :: (sepJoin (arrItemList (x :: xs')) ++ [']']) ++ rest)
          = parseVal (f' + 1) ('[' :: ((c0 :: t) ++ (']' :: rest))) := by
            rw [ht]; simp
        _ = (parseElems f' ((c0 :: t) ++ (']' :: rest))).map
              (fun p => (JVal.arr p.1, p.2)) := by
            rw [hunf, if_neg (by simp [hc0ne])]
        _ = some (JVal.arr (x :: xs'), rest) := by
            rw [← ht, hmain]
            rfl
  | hobj fs ih =>
    intro hser f rest hf _
    rw [show Serializable (JVal.obj fs) = serializableFields fs from rfl] at hser
    have hs : scv (JVal.obj fs) = '\x7b' :: (sepJoin (objItemList fs) ++ ['\x7d']) := by
      simp [scv, stringifyVal]
    rw [hs] at hf ⊢
    cases fs with
    | nil =>
      have hj : sepJoin (objItemList ([] : List (String × JVal))) = [] := by
        simp [objItemList, sepJoin]
      rw [hj] at hf ⊢
      obtain ⟨f', rfl⟩ : ∃ f', f = f' + 1 := ⟨f - 1, by omega⟩
      rfl
    | cons kv fs' =>
      obtain ⟨k, v⟩ := kv
      obtain ⟨f', rfl⟩ : ∃ f', f = f' + 1 := ⟨f - 1, by omega⟩
      have hv : Serializable v = true := by
        simp only [serializableFields, Bool.and_eq_true] at hser
        exact hser.1
      obtain ⟨t, ht⟩ : ∃ t, sepJoin (objItemList ((k, v) :: fs')) = '"' :: t := by
        have hitem : objItemList ((k, v) :: fs') =
            (stringChars k ++ (':' :: scv v)) :: objItemList fs' := by
          rw [objItemList, stringify_eq_some v hv]
        cases hcase : objItemList fs' with
        | nil =>
          refine ⟨(escapeChars k.data ++ ['"']) ++ (':' :: scv v), ?_⟩
          rw [hitem, hcase]
          rfl
        | cons i is =>
          refine ⟨((escapeChars k.data ++ ['"']) ++ (':' :: scv v)) ++
            (',' :: sepJoin (i :: is)), ?_⟩
          rw [hitem, hcase]
          rfl
      have hunf : parseVal (f' + 1) ('\x7b' :: (('"' :: t) ++ ('\x7d' :: rest))) =
          (if (('"' :: t) ++ ('\x7d' :: rest)).head? = some '\x7d'
           then some (JVal.obj [], (('"' :: t) ++ ('\x7d' :: rest)).tail)
           else (parseFields f' (('"' :: t) ++ ('\x7d' :: rest))).map
             (fun p => (JVal.obj p.1, p.2))) := rfl
      have hmain : parseFields f' (sepJoin (objItemList ((k, v) :: fs')) ++ ('\x7d' :: rest)) =
          some ((k, v) :: fs', rest) := by
        apply parseFields_scv ((k, v) :: fs') ih hser (by simp) f' rest
        simp only [List.length_append, List.length_cons, List.length_nil] at hf
        omega
      calc parseVal (f' + 1) ('\x7b' :: (sepJoin (objItemList ((k, v) :: fs')) ++ ['\x7d']) ++ rest)
          = parseVal (f' + 1) ('\x7b' :: (('"' :: t) ++ ('\x7d' :: rest))) := by
            rw [ht]; simp
        _ = (parseFields f' (('"' :: t) ++ ('\x7d' :: rest))).map
              (fun p => (JVal.obj p.1, p.2)) := by
            rw [hunf, if_neg (by simp)]
        _ = some (JVal.obj ((k, v) :: fs'), rest) := by
            rw [← ht, hmain]
            rfl

/-- Parsing the full stringification of a serializable value as one JSON
document recovers exactly the value. -/
theorem jsonParse_scv (v : JVal) (h : Serializable v = true) :
    jsonParse (String.mk (scv v)) = some v := by
  have hd : (String.mk (scv v)).data = scv v := rfl
  rw [jsonParse, hd]
  have hp : parseVal ((scv v).length + 1) (scv v ++ []) = some (v, []) :=
    parse_scv v h ((scv v).length + 1) [] (le_refl _) rfl
  rw [List.append_nil] at hp
  rw [hp]

end Json

namespace JVal

/-- Looking a key up after a field update: the updated key reads the new
value, every other key is unchanged. -/
theorem lookupField_setFieldList (fs : List (String × JVal)) (k : String) (v : JVal)
    (x : String) :
    lookupField (setFieldList fs k v) x = if k = x then some v else lookupField fs x := by
  induction fs with
  | nil =>
    by_cases hx : k = x <;> simp [setFieldList, lookupField, hx]
  | cons kv rest ih =>
    obtain ⟨k0, w⟩ := kv
    by_cases h0 : k0 = k
    · subst h0
      by_cases hx : k0 = x <;> simp [setFieldList, lookupField, hx]
    · by_cases hx0 : k0 = x <;> by_cases hxk : k = x <;>
        simp_all [setFieldList, lookupField]

/-- Object.assign of an object source onto an object target in field-list
form. -/
theorem objAssign_obj (a b : List (String × JVal)) :
    objAssign (.obj a) (.obj b) = .obj (assignFields a b) := by
  induction b generalizing a with
  | nil => rfl
  | cons kv rest ih =>
    have h1 : objAssign (JVal.obj a) (.obj (kv :: rest)) =
        objAssign (.obj (setFieldList a kv.1 kv.2)) (.obj rest) := rfl
    have h2 : assignFields a (kv :: rest) = assignFields (setFieldList a kv.1 kv.2) rest := rfl
    rw [h1, h2, ih]

/-- Lookup through an Object.assign result: the last source binding wins,
with the target as fallback. -/
theorem lookupField_assignFields (b a : List (String × JVal)) (x : String) :
    lookupField (assignFields a b) x = firstSome (lookupRev b x) (lookupField a x) := by
  induction b generalizing a with
  | nil => rfl
  | cons kv rest ih =>
    obtain ⟨k0, v0⟩ := kv
    have h2 : assignFields a ((k0, v0) :: rest) =
        assignFields (setFieldList a k0 v0) rest := rfl
    rw [h2, ih, lookupField_setFieldList]
    show firstSome (lookupRev rest x) (if k0 = x then some v0 else lookupField a x) =
      firstSome (firstSome (lookupRev rest x) (if k0 = x then some v0 else none))
        (lookupField a x)
    cases hrev : lookupRev rest x with
    | some w => simp [firstSome]
    | none => by_cases hk : k0 = x <;> simp [firstSome, hk]

/-- Keys of an updated field list: unchanged when the key was present,
the key appended when it was not. -/
theorem keys_setFieldList (fs : List (String × JVal)) (k : String) (v : JVal) :
    (setFieldList fs k v).map Prod.fst =
      if k ∈ fs.map Prod.fst then fs.map Prod.fst else fs.map Prod.fst ++ [k] := by
  induction fs with
  | nil => simp [setFieldList]
  | cons kv rest ih =>
    obtain ⟨k0, w⟩ := kv
    by_cases h0 : k0 = k
    · subst h0
      simp [setFieldList]
    · have hkk0 : (k = k0) = False := eq_false (fun e => h0 e.symm)
      simp only [setFieldList, if_neg h0, List.map_cons, ih, List.mem_cons, hkk0, false_or]
      by_cases hk : k ∈ rest.map Prod.fst <;> simp [hk]

/-- A field update preserves key distinctness. -/
theorem nodup_keys_setFieldList (fs : List (String × JVal)) (k : String) (v : JVal)
    (h : (fs.map Prod.fst).Nodup) : ((setFieldList fs k v).map Prod.fst).Nodup := by
  rw [keys_setFieldList]
  by_cases hk : k ∈ fs.map Prod.fst
  · simp [hk, h]
  · simp [hk, h, List.nodup_append]

/-- Object.assign preserves key distinctness of the target. -/
theorem nodup_keys_assignFields (b a : List (String × JVal))
    (h : (a.map Prod.fst).Nodup) : ((assignFields a b).map Prod.fst).Nodup := by
  induction b generalizing a with
  | nil => exact h
  | cons kv rest ih =>
    have h2 : assignFields a (kv :: rest) = assignFields (setFieldList a kv.1 kv.2) rest := rfl
    rw [h2]
    exact ih _ (nodup_keys_setFieldList a kv.1 kv.2 h)

/-- A key absent from a field list has no last binding. -/
theorem lookupRev_eq_none (fs : List (String × JVal)) (x : String)
    (h : x ∉ fs.map Prod.fst) : lookupRev fs x = none := by
  induction fs with
  | nil => rfl
  | cons kv rest ih =>
    obtain ⟨k0, v0⟩ := kv
    simp only [List.map_cons, List.mem_cons, not_or] at h
    have hne : k0 ≠ x := fun e => h.1 e.symm
    simp [lookupRev, ih h.2, firstSome, hne]

/-- With distinct keys the last binding is the first binding. -/
theorem lookupRev_eq_lookupField (fs : List (String × JVal)) (x : String)
    (h : (fs.map Prod.fst).Nodup) : lookupRev fs x = lookupField fs x := by
  induction fs with
  | nil => rfl
  | cons kv rest ih =>
    obtain ⟨k0, v0⟩ := kv
    simp only [List.map_cons, List.nodup_cons] at h
    by_cases hk : k0 = x
    · subst hk
      have : lookupRev rest k0 = none := lookupRev_eq_none rest k0 h.1
      simp [lookupRev, lookupField, this, firstSome]
    · have : lookupRev rest x = lookupField rest x := ih h.2
      simp only [lookupRev, lookupField, this, hk, if_neg hk, if_false]
      cases lookupField rest x <;> simp [firstSome]

end JVal

namespace JVal

/-- A first-of with no fallback is the first option itself. -/
theorem firstSome_none (x : Option JVal) : firstSome x none = x := by
  cases x <;> rfl

end JVal

/-- Once the stored last result is asynchronous, every later continuation
receives its resolved value and the last result never advances. -/
theorem invokedWithFrom_async (B r : JVal) (last : ChainVal)
    (h : last = .promise r ∨ last = .spec r) :
    ∀ fs : List ThenCont, invokedWithFrom B last fs = fs.map (fun _ => r) := by
  rcases h with h | h <;> subst h
  · intro fs
    induction fs with
    | nil => rfl
    | cons f fs ih => simp [invokedWithFrom, curInput, nextLast, ih]
  · intro fs
    induction fs with
    | nil => rfl
    | cons f fs ih => simp [invokedWithFrom, curInput, nextLast, ih]

/-- Claim C1 counterexample: on a fresh spec with no root task, expect
with an inline function does not raise any configuration error; it
returns successfully and appends the assertion to the pending list. -/
theorem expect_before_start_queues_silently :
    FrisbySpec.constructor.started = false ∧
    (FrisbySpec.expect emptyRegistry FrisbySpec.constructor (.inlineFn trivialHandler) []).isOk
      = true ∧
    ((FrisbySpec.expect emptyRegistry FrisbySpec.constructor (.inlineFn trivialHandler) []).map
      (fun s => s._expects.length) = .ok 1) :=
  ⟨rfl, rfl, rfl⟩

/-- Claim C1 (amended): expect and expectNot never consult the started
flag; with an inline function or a known name they append the assertion
silently even before any response-resolution call, and only an unknown
name raises a registration-time error. -/
theorem expect_registration_never_checks_started (registry : Registry) (st : SpecState)
    (h : ExpectHandler) (args : List JVal) (n : String) (_hst : st.started = false) :
    ((FrisbySpec.expect registry st (.inlineFn h) args).map (fun s => s._expects.length) =
      .ok (st._expects.length + 1)) ∧
    ((FrisbySpec.expectNot registry st (.inlineFn h) args).map (fun s => s._expects.length) =
      .ok (st._expects.length + 1)) ∧
    (∀ hh, registry n = some hh →
      (FrisbySpec.expect registry st (.named n) args).map (fun s => s._expects.length) =
        .ok (st._expects.length + 1)) ∧
    (registry n = none →
      FrisbySpec.expect registry st (.named n) args = .error (.undefinedExpectation n)) := by
  refine ⟨?_, ?_, ?_, ?_⟩
  · simp [FrisbySpec.expect, FrisbySpec._getExpectRunner, FrisbySpec._addExpect,
      Except.map, List.length_append]
  · simp [FrisbySpec.expectNot, FrisbySpec._getExpectRunner, FrisbySpec._addExpect,
      Except.map, List.length_append]
  · intro hh hreg
    simp [FrisbySpec.expect, FrisbySpec._getExpectRunner, hreg, FrisbySpec._addExpect,
      Except.map, List.length_append]
  · intro hreg
    simp [FrisbySpec.expect, FrisbySpec._getExpectRunner, hreg]

/-- Claim C1 amended witness at a concrete fresh spec. -/
theorem expect_registration_never_checks_started_witness :
    FrisbySpec.constructor.started = false ∧
    ((FrisbySpec.expect emptyRegistry FrisbySpec.constructor (.inlineFn trivialHandler) []).map
      (fun s => s._expects.length) = .ok 1) :=
  ⟨rfl, (expect_registration_never_checks_started emptyRegistry FrisbySpec.constructor
    trivialHandler [] ("status") rfl).1⟩

/-- Claim C2 counterexample: in a three-step chain where the first and
second continuations both return promises, the third continuation is
invoked with the first promise resolution, not the second one: the
second level of nesting is not flattened. -/
theorem then_second_level_not_flattened :
    invokedWith (.num 0) [contPromise1, contPromise2, contId] =
      [.num 0, .num 1, .num 1] ∧
    contPromise2 (.num 1) = ChainVal.promise (.num 2) ∧
    JVal.num 1 ≠ JVal.num 2 :=
  ⟨rfl, rfl, by simp⟩

/-- Claim C2 (amended): when the stored last result is not yet
asynchronous and a continuation returns an asynchronous value resolving
to r, the next continuation and every continuation after it receive r:
one level of nesting is flattened, and the last result never advances,
so a later continuation returning its own asynchronous value is not
awaited for the steps after it. -/
theorem then_flattens_one_level_only (B : JVal) (last : ChainVal) (f : ThenCont)
    (fs : List ThenCont) (r : JVal)
    (hlast : last.isAsync = false)
    (hf : f B = .promise r ∨ f B = .spec r) :
    invokedWithFrom B last (f :: fs) = curInput B last :: fs.map (fun _ => r) := by
  cases last with
  | promise q => simp [ChainVal.isAsync] at hlast
  | spec q => simp [ChainVal.isAsync] at hlast
  | val v =>
    show curInput B (.val v) :: invokedWithFrom B (nextLast B (.val v) f) fs = _
    rw [show nextLast B (.val v) f = f B from rfl]
    rw [invokedWithFrom_async B r (f B) hf fs]

/-- Claim C2 amended witness on a concrete two-promise chain. -/
theorem then_flattens_one_level_only_witness :
    ChainVal.isAsync initialLast = false ∧
    (contPromise1 (.num 0) = ChainVal.promise (.num 1) ∨
      contPromise1 (.num 0) = ChainVal.spec (.num 1)) ∧
    invokedWithFrom (.num 0) initialLast [contPromise1, contPromise2, contId] =
      curInput (.num 0) initialLast :: [contPromise2, contId].map (fun _ => (JVal.num 1)) :=
  ⟨rfl, Or.inl rfl, then_flattens_one_level_only (.num 0) initialLast contPromise1
    [contPromise2, contId] (.num 1) rfl (Or.inl rfl)⟩

/-- Claim C3 counterexample: the rejection handler installed on the
fromJSON chain is passed to catch without binding, so invoked on a
rejection it yields the TypeError outcome of an undefined receiver and
not a policy outcome, whereas the same handler with a bound receiver, as
every other rejection path invokes it, hands the error to the registered
catch handler. -/
theorem fromJSON_catch_handler_unbound :
    FrisbySpec.fromJSONRejectionOutcome (FrisbySpec.catchFn FrisbySpec.constructor handlerStub)
      { hasFail := true, hasExpect := true } sampleFailure = .thisUndefinedTypeError ∧
    FrisbySpec._fetchErrorHandler
      (some (FrisbySpec.catchFn FrisbySpec.constructor handlerStub))
      { hasFail := true, hasExpect := true } sampleFailure = .customHandled sampleFailure ∧
    FailureOutcome.thisUndefinedTypeError ≠ FailureOutcome.customHandled sampleFailure :=
  ⟨rfl, rfl, by simp⟩

/-- Claim C3 (amended): every rejection delivered to the bound handler,
as the fetch, then and assertion paths deliver it, follows the policy:
a registered catch handler receives the error and nothing further
propagates, else a host fail function, else the host expect primitive
surfacing the stack, else a re-raise.  The fromJSON chain instead
installs the handler unbound, so it would not consult the policy; no
rejection reaches it, however: an unserializable value already throws a
synchronous TypeError while building the Response options, and for every
serializable value the chain resolves. -/
theorem failure_policy_bound_paths (st : SpecState) (env : HostEnv) (err : TestError) :
    (st._expectError.isSome = true →
      FrisbySpec._fetchErrorHandler (some st) env err = .customHandled err) ∧
    (st._expectError = none → env.hasFail = true →
      FrisbySpec._fetchErrorHandler (some st) env err = .failCalled err) ∧
    (st._expectError = none → env.hasFail = false → env.hasExpect = true →
      FrisbySpec._fetchErrorHandler (some st) env err = .expectForcedFailure err.stack) ∧
    (st._expectError = none → env.hasFail = false → env.hasExpect = false →
      FrisbySpec._fetchErrorHandler (some st) env err = .rethrown err) ∧
    (FrisbySpec.fetchRejectionOutcome st env err =
      FrisbySpec._fetchErrorHandler (some st) env err) ∧
    (FrisbySpec.fromJSONRejectionOutcome st env err = .thisUndefinedTypeError) ∧
    (FrisbySpec.fromJSON st env JVal.undefined = .error .typeError) ∧
    (∀ json, Json.Serializable json = true →
      ∃ st2 args, FrisbySpec.fromJSON st env json = .ok (.resolved st2 args)) := by
  refine ⟨?_, ?_, ?_, ?_, rfl, rfl, ?_, ?_⟩
  · intro hc
    obtain ⟨f, hf⟩ := Option.isSome_iff_exists.mp hc
    simp [FrisbySpec._fetchErrorHandler, hf]
  · intro hc hfail
    simp [FrisbySpec._fetchErrorHandler, hc, hfail]
  · intro hc hfail hexp
    simp [FrisbySpec._fetchErrorHandler, hc, hfail, hexp]
  · intro hc hfail hexp
    simp [FrisbySpec._fetchErrorHandler, hc, hfail, hexp]
  · simp [FrisbySpec.fromJSON, jsonStringify, Json.stringifyVal]
  · intro json hser
    have hstr : jsonStringify json = some (String.mk (Json.scv json)) := by
      rw [jsonStringify, Json.stringify_eq_some json hser]
      rfl
    have hparse := Json.jsonParse_scv json hser
    simp only [FrisbySpec.fromJSON, hstr, hparse]
    exact ⟨_, _, rfl⟩

/-- Claim C3 amended witness: concrete bound-handler outcomes, the
unbound fromJSON wiring, the synchronous TypeError on an unserializable
value, and a resolving serializable value. -/
theorem failure_policy_bound_paths_witness :
    ((FrisbySpec.catchFn FrisbySpec.constructor handlerStub)._expectError.isSome = true ∧
      FrisbySpec._fetchErrorHandler
        (some (FrisbySpec.catchFn FrisbySpec.constructor handlerStub))
        { hasFail := true, hasExpect := true } sampleFailure =
          .customHandled sampleFailure) ∧
    (FrisbySpec.constructor._expectError = none ∧
      FrisbySpec._fetchErrorHandler (some FrisbySpec.constructor)
        { hasFail := false, hasExpect := false } sampleFailure = .rethrown sampleFailure) ∧
    FrisbySpec.fromJSON FrisbySpec.constructor { hasFail := true, hasExpect := true }
      JVal.undefined = .error .typeError ∧
    (Json.Serializable JVal.null = true ∧
      ∃ st2 args, FrisbySpec.fromJSON FrisbySpec.constructor
        { hasFail := true, hasExpect := true } JVal.null = .ok (.resolved st2 args)) :=
  ⟨⟨rfl, (failure_policy_bound_paths (FrisbySpec.catchFn FrisbySpec.constructor handlerStub)
      { hasFail := true, hasExpect := true } sampleFailure).1 rfl⟩,
   ⟨rfl, (failure_policy_bound_paths FrisbySpec.constructor
      { hasFail := false, hasExpect := false } sampleFailure).2.2.2.1 rfl rfl rfl⟩,
   (failure_policy_bound_paths FrisbySpec.constructor
      { hasFail := true, hasExpect := true } sampleFailure).2.2.2.2.2.2.1,
   ⟨rfl, (failure_policy_bound_paths FrisbySpec.constructor
      { hasFail := true, hasExpect := true } sampleFailure).2.2.2.2.2.2.2 JVal.null rfl⟩⟩

/-- Claim C7: an expectation whose handler throws forwards exactly one
error to the failure channel when registered through expect, and none at
all when registered through expectNot. -/
theorem expect_throw_routing (registry : Registry) (st : SpecState) (h : ExpectHandler)
    (args : List JVal) (resp : ResponseSnapshot) (e : TestError)
    (hthrow : h resp args = .error e) :
    ((FrisbySpec.expect registry st (.inlineFn h) args).map
      (fun s => s._expects.map (fun c => c resp)) =
      .ok (st._expects.map (fun c => c resp) ++ [[e]])) ∧
    ((FrisbySpec.expectNot registry st (.inlineFn h) args).map
      (fun s => s._expects.map (fun c => c resp)) =
      .ok (st._expects.map (fun c => c resp) ++ [[]])) := by
  constructor
  · simp [FrisbySpec.expect, FrisbySpec._getExpectRunner, FrisbySpec._addExpect,
      FrisbySpec.expectRunnerClosure, hthrow, Except.map]
  · simp [FrisbySpec.expectNot, FrisbySpec._getExpectRunner, FrisbySpec._addExpect,
      FrisbySpec.expectRunnerClosure, hthrow, Except.map]

/-- Claim C7 witness with a concrete always-throwing handler. -/
theorem expect_throw_routing_witness :
    throwingHandler sampleResponse [] = .error sampleFailure ∧
    ((FrisbySpec.expect emptyRegistry FrisbySpec.constructor (.inlineFn throwingHandler) []).map
      (fun s => s._expects.map (fun c => c sampleResponse)) = .ok [[sampleFailure]]) :=
  ⟨rfl, (expect_throw_routing emptyRegistry FrisbySpec.constructor throwingHandler []
    sampleResponse sampleFailure rfl).1⟩

/-- Claim C8: a continuation that returns undefined leaves the chained
value unchanged: the next continuation is invoked with exactly the value
the returning continuation was invoked with. -/
theorem then_undefined_passthrough (B : JVal) (last : ChainVal) (f g : ThenCont)
    (fs : List ThenCont) (hf : f (curInput B last) = .val .undefined) :
    (invokedWithFrom B last (f :: g :: fs)).take 2 =
      [curInput B last, curInput B last] := by
  cases last with
  | promise r => simp [invokedWithFrom, curInput, nextLast]
  | spec r => simp [invokedWithFrom, curInput, nextLast]
  | val v =>
    have hn : nextLast B (.val v) f = .val .undefined := hf
    simp [invokedWithFrom, hn, curInput]

/-- Claim C8 witness with a concrete undefined-returning continuation. -/
theorem then_undefined_passthrough_witness :
    contVoid (curInput (.num 3) initialLast) = ChainVal.val .undefined ∧
    (invokedWithFrom (.num 3) initialLast [contVoid, contId]).take 2 =
      [curInput (.num 3) initialLast, curInput (.num 3) initialLast] :=
  ⟨rfl, then_undefined_passthrough (.num 3) initialLast contVoid contId [] rfl⟩

/-- Claim C9: setup merges or replaces the shared defaults and then reads
request.timeout unconditionally, so when the resulting defaults carry no
request field the call throws a TypeError; when it returns the spec, a
readable request value is present, the new defaults are stored, and the
per-spec timeout is reset to the truthy defaults timeout or the module
constant, independently of the previous per-spec timeout. -/
theorem setup_requires_request_field (st : SpecState) (opts : JVal) (replace : Bool) :
    (hasRequestField (if replace then opts else JVal.lodashMerge st._setupDefaults opts)
        = false →
      FrisbySpec.setup st opts replace = .error .typeError) ∧
    (∀ st', FrisbySpec.setup st opts replace = .ok st' →
      ∃ req, JVal.getProp (if replace then opts else JVal.lodashMerge st._setupDefaults opts)
          ("request") = some req ∧
        req.isUndefined = false ∧
        st'._setupDefaults = (if replace then opts else JVal.lodashMerge st._setupDefaults opts) ∧
        st'._timeout = (if (req.getPropD ("timeout")).truthy then req.getPropD ("timeout")
          else TIMEOUT_DEFAULT)) := by
  constructor
  · intro hno
    simp only [FrisbySpec.setup]
    cases hd : (if replace then opts else JVal.lodashMerge st._setupDefaults opts) with
    | undefined => simp [hd, JVal.getProp]
    | null => simp [hd, JVal.getProp]
    | bool b => simp [hd, JVal.getProp]
    | num m => simp [hd, JVal.getProp]
    | str s => simp [hd, JVal.getProp]
    | arr xs => simp [hd, JVal.getProp]
    | obj fs =>
      rw [hd] at hno
      have hnone : JVal.lookupField fs ("request") = none := by
        cases hcase : JVal.lookupField fs ("request") <;>
          simp [hasRequestField, hcase] at hno ⊢
      simp [hd, JVal.getProp, hnone]
  · intro st' hok
    simp only [FrisbySpec.setup] at hok
    cases hreq : JVal.getProp (if replace then opts else JVal.lodashMerge st._setupDefaults opts)
        ("request") with
    | none => rw [hreq] at hok; cases hok
    | some req =>
      rw [hreq] at hok
      dsimp only [] at hok
      cases ht : JVal.getProp req ("timeout") with
      | none => rw [ht] at hok; cases hok
      | some t =>
        rw [ht] at hok
        dsimp only [] at hok
        refine ⟨req, rfl, ?_, ?_, ?_⟩
        · cases req with
          | undefined => cases ht
          | null => cases ht
          | bool b => rfl
          | num m => rfl
          | str s => rfl
          | arr xs => rfl
          | obj fs => rfl
        · cases hok
          rfl
        · cases hok
          have hpd : req.getPropD ("timeout") = t := by
            rw [JVal.getPropD, ht]
            rfl
          rw [hpd]

/-- Claim C9 witness: concrete setup calls with and without a request
field on a fresh spec. -/
theorem setup_requires_request_field_witness :
    (hasRequestField (if false = true then JVal.obj []
        else JVal.lodashMerge FrisbySpec.constructor._setupDefaults (JVal.obj [])) = false ∧
      FrisbySpec.setup FrisbySpec.constructor (JVal.obj []) false = .error .typeError) ∧
    (FrisbySpec.setup FrisbySpec.constructor
        (JVal.obj [(("request"), JVal.obj [(("timeout"), JVal.num 10)])]) false =
        .ok { FrisbySpec.constructor with
          _setupDefaults := JVal.obj [(("request"), JVal.obj [(("timeout"), JVal.num 10)])],
          _timeout := JVal.num 10 }) := by
  refine ⟨⟨?_, ?_⟩, ?_⟩
  · simp [hasRequestField, JVal.lodashMerge, JVal.mergeOver, JVal.newFields,
      FrisbySpec.constructor, JVal.lookupField]
  · exact (setup_requires_request_field FrisbySpec.constructor (JVal.obj []) false).1
      (by simp [hasRequestField, JVal.lodashMerge, JVal.mergeOver, JVal.newFields,
        FrisbySpec.constructor, JVal.lookupField])
  · simp [FrisbySpec.setup, JVal.lodashMerge, JVal.mergeOver, JVal.newFields,
      FrisbySpec.constructor, JVal.getProp, JVal.lookupField, JVal.truthy]

/-- Claim C10: a falsy timeout argument selects the getter, which returns
the effective timeout value and never the spec, so a zero per-spec
timeout cannot be set; only a truthy argument stores the per-spec timeout
and returns the spec, and any setter result stores a truthy timeout. -/
theorem timeout_falsy_getter (st : SpecState) (t : JVal) :
    (∀ req, t.truthy = false →
      JVal.getProp st._setupDefaults ("request") = some req →
      FrisbySpec.timeout st t = .ok (.value
        (if req.truthy && (req.getPropD ("timeout")).truthy
         then req.getPropD ("timeout") else st._timeout))) ∧
    (t.truthy = true →
      FrisbySpec.timeout st t = .ok (.spec { st with _timeout := t })) ∧
    (∀ st', FrisbySpec.timeout st t = .ok (.spec st') →
      t.truthy = true ∧ st'._timeout = t ∧ st'._timeout.truthy = true) := by
  refine ⟨?_, ?_, ?_⟩
  · intro req ht hreq
    simp only [FrisbySpec.timeout, ht, Bool.not_false, if_pos, hreq]
    by_cases hc : req.truthy && (req.getPropD ("timeout")).truthy <;> simp [hc]
  · intro ht
    simp [FrisbySpec.timeout, ht]
  · intro st' hok
    by_cases ht : t.truthy
    · refine ⟨ht, ?_, ?_⟩
      · simp [FrisbySpec.timeout, ht] at hok
        rw [← hok]
      · simp [FrisbySpec.timeout, ht] at hok
        rw [← hok]
        exact ht
    · exfalso
      have ht' : t.truthy = false := by
        revert ht
        cases t.truthy <;> simp
      simp only [FrisbySpec.timeout, ht', Bool.not_false, if_pos] at hok
      cases hreq : JVal.getProp st._setupDefaults ("request") with
      | none => rw [hreq] at hok; cases hok
      | some req =>
        rw [hreq] at hok
        by_cases hc : req.truthy && (req.getPropD ("timeout")).truthy <;>
          simp [hc] at hok

/-- Claim C10 witness: a zero argument acts as the getter on a fresh
spec, and a truthy argument stores the per-spec timeout. -/
theorem timeout_falsy_getter_witness :
    (JVal.num 0).truthy = false ∧
    JVal.getProp FrisbySpec.constructor._setupDefaults ("request") = some JVal.undefined ∧
    FrisbySpec.timeout FrisbySpec.constructor (JVal.num 0) = .ok (.value
      (if JVal.undefined.truthy && (JVal.undefined.getPropD ("timeout")).truthy
       then JVal.undefined.getPropD ("timeout") else FrisbySpec.constructor._timeout)) ∧
    (JVal.num 7).truthy = true ∧
    FrisbySpec.timeout FrisbySpec.constructor (JVal.num 7) =
      .ok (.spec { FrisbySpec.constructor with _timeout := JVal.num 7 }) :=
  ⟨rfl, rfl, (timeout_falsy_getter FrisbySpec.constructor (JVal.num 0)).1 JVal.undefined rfl rfl,
   rfl, (timeout_falsy_getter FrisbySpec.constructor (JVal.num 7)).2.1 rfl⟩

/-- Claim C5: loading a serializable value through fromJSON resolves to a
response snapshot with status 200, a JSON Content-Type header, and a
parsed body deep-equal to the input value; the model performs no
transport call on this path. -/
theorem fromJSON_snapshot_contract (st : SpecState) (env : HostEnv) (json : JVal)
    (hser : Json.Serializable json = true) :
    ∃ st2 args, FrisbySpec.fromJSON st env json = .ok (.resolved st2 args) ∧
      ∃ resp, st2._response = some resp ∧
        resp.status = 200 ∧
        headersGet resp.headers ("Content-Type") = some ("application/json") ∧
        resp._body = some json := by
  have hstr : jsonStringify json = some (String.mk (Json.scv json)) := by
    rw [jsonStringify, Json.stringify_eq_some json hser]
    rfl
  have hparse := Json.jsonParse_scv json hser
  simp only [FrisbySpec.fromJSON, hstr, hparse]
  exact ⟨_, _, rfl, _, rfl, rfl, rfl, rfl⟩

/-- Claim C5 witness at a concrete object value. -/
theorem fromJSON_snapshot_contract_witness :
    Json.Serializable (JVal.obj [(("a"), JVal.num 1)]) = true ∧
    (∃ st2 args, FrisbySpec.fromJSON FrisbySpec.constructor { hasFail := false, hasExpect := false }
        (JVal.obj [(("a"), JVal.num 1)]) = .ok (.resolved st2 args) ∧
      ∃ resp, st2._response = some resp ∧
        resp.status = 200 ∧
        headersGet resp.headers ("Content-Type") = some ("application/json") ∧
        resp._body = some (JVal.obj [(("a"), JVal.num 1)])) :=
  ⟨by simp [Json.Serializable, Json.serializableFields],
   fromJSON_snapshot_contract FrisbySpec.constructor { hasFail := false, hasExpect := false }
     (JVal.obj [(("a"), JVal.num 1)])
     (by simp [Json.Serializable, Json.serializableFields])⟩

/-- Claim C6: when the network response declares a JSON content type the
snapshot body is the JSON-decoded payload, otherwise, including with no
Content-Type header at all, it is the raw text; in both cases every
registered assertion is invoked with the snapshot that already carries
the stored body. -/
theorem fetch_body_decoding_contract (st : SpecState) (env : HostEnv) (r : NetResponse) :
    (∀ v, jsonContentType r = true → Json.jsonParse r.textBody = some v →
      ∃ st2 args, FrisbySpec.fetchResolve st env r = .resolved st2 args ∧
        ∃ resp, st2._response = some resp ∧ resp._body = some v ∧
          ∀ a ∈ args, a = resp) ∧
    (jsonContentType r = false →
      ∃ st2 args, FrisbySpec.fetchResolve st env r = .resolved st2 args ∧
        ∃ resp, st2._response = some resp ∧ resp._body = some (.str r.textBody) ∧
          ∀ a ∈ args, a = resp) := by
  constructor
  · intro v hct hparse
    simp only [FrisbySpec.fetchResolve, hct, if_pos, hparse]
    refine ⟨_, _, rfl, _, rfl, rfl, ?_⟩
    intro a ha
    simp only [List.mem_map] at ha
    obtain ⟨c, _, hc⟩ := ha
    exact hc.symm
  · intro hct
    simp only [FrisbySpec.fetchResolve, hct, Bool.false_eq_true, if_false]
    refine ⟨_, _, rfl, _, rfl, rfl, ?_⟩
    intro a ha
    simp only [List.mem_map] at ha
    obtain ⟨c, _, hc⟩ := ha
    exact hc.symm

/-- Claim C6 witness: one JSON response and one plain-text response. -/
theorem fetch_body_decoding_contract_witness :
    (jsonContentType ⟨200, ("OK"),
        [(("content-type"), ("application/json; charset=utf-8"))], ("\x7b\"a\":1\x7d")⟩ = true ∧
      Json.jsonParse ("\x7b\"a\":1\x7d") = some (JVal.obj [(("a"), JVal.num 1)]) ∧
      (∃ st2 args, FrisbySpec.fetchResolve FrisbySpec.constructor ⟨false, false⟩
          ⟨200, ("OK"), [(("content-type"), ("application/json; charset=utf-8"))],
            ("\x7b\"a\":1\x7d")⟩ = .resolved st2 args ∧
        ∃ resp, st2._response = some resp ∧
          resp._body = some (JVal.obj [(("a"), JVal.num 1)]) ∧
          ∀ a ∈ args, a = resp)) ∧
    (jsonContentType ⟨404, ("NF"), [], ("hello")⟩ = false ∧
      (∃ st2 args, FrisbySpec.fetchResolve FrisbySpec.constructor ⟨false, false⟩
          ⟨404, ("NF"), [], ("hello")⟩ = .resolved st2 args ∧
        ∃ resp, st2._response = some resp ∧
          resp._body = some (.str ("hello")) ∧
          ∀ a ∈ args, a = resp)) :=
  ⟨⟨by decide, rfl,
    (fetch_body_decoding_contract FrisbySpec.constructor ⟨false, false⟩
      ⟨200, ("OK"), [(("content-type"), ("application/json; charset=utf-8"))],
        ("\x7b\"a\":1\x7d")⟩).1 (JVal.obj [(("a"), JVal.num 1)])
      (by decide) rfl⟩,
   ⟨by decide,
    (fetch_body_decoding_contract FrisbySpec.constructor ⟨false, false⟩
      ⟨404, ("NF"), [], ("hello")⟩).2 (by decide)⟩⟩

/-- Claim C4 counterexample: a method key in the caller-supplied params
of post displaces the verb-implied POST method in the issued request. -/
theorem post_caller_method_displaces_verb :
    ((FrisbySpec.post FrisbySpec.constructor ("http://api/x")
        (.obj [(("method"), .str ("GET")), (("body"), .str ("x"))])).map
      (fun st => st._requestParams.map (fun fp => JVal.lookupJ fp ("method")))) =
      .ok (some (some (.str ("GET")))) ∧
    JVal.str ("GET") ≠ JVal.str ("POST") :=
  ⟨rfl, by simp⟩

/-- Claim C4 (amended): the request configuration is built with
increasing precedence shared setup defaults, then method-implied
defaults, then caller-supplied parameters: a caller key other than body
always survives into the issued request, the verb-implied method applies
exactly when the caller sent no method key, and a setup-default key is
visible only when neither the caller parameters nor the method-implied
defaults carry it. -/
theorem request_merge_precedence (st : SpecState) (a p : List (String × JVal))
    (method url : String)
    (hsetup : JVal.getProp st._setupDefaults ("request") = some (.obj a))
    (ha : (a.map Prod.fst).Nodup) (hp : (p.map Prod.fst).Nodup) :
    ∃ st', FrisbySpec._requestWithBody st method url (.obj p) = .ok st' ∧
      ∃ fp, st'._requestParams = some fp ∧
        (∀ x v, x ≠ ("body") → JVal.lookupField p x = some v →
          JVal.lookupJ fp x = some v) ∧
        (JVal.lookupField p ("method") = none →
          JVal.lookupJ fp ("method") = some (.str method)) ∧
        (∀ x, x ≠ ("body") → x ≠ ("method") → JVal.lookupField p x = none →
          JVal.lookupJ fp x = JVal.lookupField a x) := by
  obtain ⟨p2, hp2eq, hp2nodup, hp2look⟩ :
      ∃ p2, (if ((JVal.obj p).getPropD ("body")).isObject
             then JVal.setField (.obj p) ("body")
               (.str ((jsonStringify ((JVal.obj p).getPropD ("body"))).getD ("")))
             else (.obj p)) = JVal.obj p2 ∧
        (p2.map Prod.fst).Nodup ∧
        (∀ x, x ≠ ("body") → JVal.lookupField p2 x = JVal.lookupField p x) := by
    by_cases hb : ((JVal.obj p).getPropD ("body")).isObject
    · refine ⟨JVal.setFieldList p ("body")
        (.str ((jsonStringify ((JVal.obj p).getPropD ("body"))).getD (""))), ?_, ?_, ?_⟩
      · rw [if_pos hb]
        rfl
      · exact JVal.nodup_keys_setFieldList p _ _ hp
      · intro x hx
        rw [JVal.lookupField_setFieldList]
        rw [if_neg (fun e => hx e.symm)]
    · exact ⟨p, by rw [if_neg hb], hp, fun _ _ => rfl⟩
  obtain ⟨postF, hposteq, hpostnodup, hpostm, hposto⟩ :
      ∃ postF,
        (if ((JVal.obj p2).getPropD ("body")).isUndefined &&
            ((JVal.obj p2).getPropD ("headers")).isUndefined then
          JVal.setField (JVal.obj [(("method"), JVal.str method)]) ("body")
            (JVal.str ((jsonStringify (JVal.obj p2)).getD ("")))
        else JVal.obj [(("method"), JVal.str method)]) = JVal.obj postF ∧
        (postF.map Prod.fst).Nodup ∧
        JVal.lookupField postF ("method") = some (.str method) ∧
        (∀ x, x ≠ ("method") → x ≠ ("body") → JVal.lookupField postF x = none) := by
    by_cases hc : ((JVal.obj p2).getPropD ("body")).isUndefined &&
        ((JVal.obj p2).getPropD ("headers")).isUndefined
    · refine ⟨JVal.setFieldList [(("method"), JVal.str method)] ("body")
        (JVal.str ((jsonStringify (JVal.obj p2)).getD (""))), ?_, ?_, ?_, ?_⟩
      · rw [if_pos hc]
        rfl
      · apply JVal.nodup_keys_setFieldList
        simp
      · rw [JVal.lookupField_setFieldList]
        simp [JVal.lookupField]
      · intro x hxm hxb
        rw [JVal.lookupField_setFieldList, if_neg (fun e => hxb e.symm)]
        simp only [JVal.lookupField]
        rw [if_neg (fun e => hxm e.symm)]
    · refine ⟨[(("method"), JVal.str method)], ?_, ?_, ?_, ?_⟩
      · rw [if_neg hc]
      · simp
      · simp [JVal.lookupField]
      · intro x hxm _
        simp only [JVal.lookupField]
        rw [if_neg (fun e => hxm e.symm)]
  have main : ∀ x, JVal.lookupJ (JVal.objAssign (JVal.objAssign (JVal.obj []) (JVal.obj a))
      (JVal.objAssign (JVal.obj postF) (JVal.obj p2))) x =
      JVal.firstSome (JVal.firstSome (JVal.lookupField p2 x) (JVal.lookupField postF x))
        (JVal.lookupField a x) := by
    intro x
    rw [JVal.objAssign_obj, JVal.objAssign_obj, JVal.objAssign_obj]
    show JVal.lookupField
      (JVal.assignFields (JVal.assignFields [] a) (JVal.assignFields postF p2)) x = _
    rw [JVal.lookupField_assignFields (JVal.assignFields postF p2) (JVal.assignFields [] a) x,
      JVal.lookupRev_eq_lookupField _ x (JVal.nodup_keys_assignFields p2 postF hpostnodup),
      JVal.lookupField_assignFields p2 postF x,
      JVal.lookupRev_eq_lookupField _ x hp2nodup,
      JVal.lookupField_assignFields a [] x,
      JVal.lookupRev_eq_lookupField _ x ha,
      show JVal.lookupField ([] : List (String × JVal)) x = none from rfl,
      JVal.firstSome_none]
  have hrun : FrisbySpec._requestWithBody st method url (.obj p) =
      .ok { st with
        started := true
        _requestUrl := some url
        _requestParams := some (JVal.objAssign (JVal.objAssign (JVal.obj []) (JVal.obj a))
          (JVal.objAssign (JVal.obj postF) (JVal.obj p2))) } := by
    simp only [FrisbySpec._requestWithBody, JVal.truthy, Bool.true_and]
    rw [hp2eq]
    simp only [JVal.truthy, Bool.true_and]
    rw [hposteq]
    simp [FrisbySpec.fetch, FrisbySpec.fetchParams, hsetup, JVal.objAssign_obj, JVal.truthy]
  refine ⟨_, hrun, _, rfl, ?_, ?_, ?_⟩

  · intro x v hx hv
    rw [main x, hp2look x hx, hv]
    rfl
  · intro hnone
    rw [main ("method"), hp2look ("method") (by decide), hnone, hpostm]
    rfl
  · intro x hxb hxm hnone
    rw [main x, hp2look x hxb, hnone, hposto x hxm hxb]
    rfl

/-- Claim C4 amended witness at a concrete setup default and a caller
method key. -/
theorem request_merge_precedence_witness :
    (List.map Prod.fst [(("x"), JVal.num 7)]).Nodup ∧
    (List.map Prod.fst [(("method"), JVal.str ("GET"))]).Nodup ∧
    (∃ st', FrisbySpec._requestWithBody
        { FrisbySpec.constructor with
          _setupDefaults := JVal.obj [(("request"), JVal.obj [(("x"), JVal.num 7)])] }
        ("POST") ("http://api/x") (.obj [(("method"), JVal.str ("GET"))]) = .ok st' ∧
      ∃ fp, st'._requestParams = some fp ∧
        (∀ x v, x ≠ ("body") →
          JVal.lookupField [(("method"), JVal.str ("GET"))] x = some v →
          JVal.lookupJ fp x = some v) ∧
        (JVal.lookupField [(("method"), JVal.str ("GET"))] ("method") = none →
          JVal.lookupJ fp ("method") = some (.str ("POST"))) ∧
        (∀ x, x ≠ ("body") → x ≠ ("method") →
          JVal.lookupField [(("method"), JVal.str ("GET"))] x = none →
          JVal.lookupJ fp x = JVal.lookupField [(("x"), JVal.num 7)] x)) :=
  ⟨by simp, by simp,
   request_merge_precedence
     { FrisbySpec.constructor with
       _setupDefaults := JVal.obj [(("request"), JVal.obj [(("x"), JVal.num 7)])] }
     [(("x"), JVal.num 7)] [(("method"), JVal.str ("GET"))] ("POST") ("http://api/x")
     rfl (by simp) (by simp)⟩
